import Mathlib

/-!
Verification of the chunking and structural-classification pipeline of the
`extra-o-de-dados` repository, against its natural-language specification.

The Python sources are shallowly embedded: strings are `List Char`, Python
dict records become structures, the stateful chunk-builder loops become
folds over explicit state.  Fields of the source records whose values are
produced by floating-point arithmetic or float formatting (the
`document_position` percentage strings, `structural_confidence` means) are
not modelled; no claim below concerns them.  Where the source manipulates
opaque identifier strings ("chunk_3", "page_1_block_2", "section_0"), the
embedding uses the underlying number, which is faithful because the string
wrappers are injective in that number.
-/

/-! ### Python string primitives -/

/-- Whitespace as matched by Python's `str.strip`, `str.split` and `\s`
(ASCII range; the source data is ASCII). -/
def pyWs (c : Char) : Bool :=
  (c == ' ') || (c == '\t') || (c == '\n') || (c == '\r') || (c == '\x0b') || (c == '\x0c')

/-- Python `s.strip()`: drop leading and trailing whitespace. -/
def pyStrip (l : List Char) : List Char :=
  ((l.dropWhile pyWs).reverse.dropWhile pyWs).reverse

/-- Python `s.split()` (no argument): maximal runs of non-whitespace,
empty pieces discarded.  `acc` holds the current word reversed. -/
def pySplitWsAux : List Char → List Char → List (List Char)
  | [], acc => if acc.isEmpty then [] else [acc.reverse]
  | c :: rest, acc =>
    if pyWs c then
      if acc.isEmpty then pySplitWsAux rest [] else acc.reverse :: pySplitWsAux rest []
    else
      pySplitWsAux rest (c :: acc)

/-- Python `s.split()`. -/
def pySplitWs (l : List Char) : List (List Char) := pySplitWsAux l []

/-- Python `len(s.split())`, the word count used by the chunk builders. -/
def pyWordCount (l : List Char) : Nat := (pySplitWs l).length

/-- The two-newline separator `"\n\n"` inserted between accumulated elements. -/
def nl2 : List Char := ['\n', '\n']

/-- Sentence-ending punctuation of the overlap regex `[.!?]\s+`. -/
def sentPunct (c : Char) : Bool := (c == '.') || (c == '!') || (c == '?')

/-- Python `s[-n:]` for `n : Nat` (for `n = 0` Python yields the whole
string, since `s[-0:] = s[0:]`). -/
def pyNegSlice (n : Nat) (l : List Char) : List Char :=
  if n = 0 then l else l.drop (l.length - n)

/-!
`re.split(r'[.!?]\s+', s)`: split `s` at every leftmost, non-overlapping
match of one sentence punctuation character followed by a maximal run of
whitespace.  Implemented as a one-character-at-a-time state machine so that
the recursion is structural (and hence reduces under `decide`):

* `skip = false` (normal mode): characters are pushed onto the reversed
  current fragment `acc`; when a whitespace character arrives and the most
  recently pushed character is sentence punctuation, a delimiter match
  begins: the fragment without that punctuation character is emitted and
  the machine enters whitespace-skipping mode.
* `skip = true`: whitespace characters of the delimiter's `\s+` run are
  consumed; the first non-whitespace character starts the next fragment.
-/
def splitStep : List Char → Bool → List Char → List (List Char) → List (List Char)
  | [], _, acc, done => done ++ [acc.reverse]
  | c :: rest, true, acc, done =>
    if pyWs c then splitStep rest true acc done
    else splitStep rest false [c] done
  | c :: rest, false, acc, done =>
    if pyWs c then
      match acc with
      | p :: acc2 =>
        if sentPunct p then splitStep rest true [] (done ++ [acc2.reverse])
        else splitStep rest false (c :: acc) done
      | [] => splitStep rest false (c :: acc) done
    else splitStep rest false (c :: acc) done

/-- `re.split(r'[.!?]\s+', s)` of the source's `_get_overlap_content`. -/
def pySentSplit (l : List Char) : List (List Char) := splitStep l false [] []

/-- Python `'. '.join(fragments)`. -/
def joinDot : List (List Char) → List Char
  | [] => []
  | [x] => x
  | x :: y :: rest => x ++ '.' :: ' ' :: joinDot (y :: rest)

/-- `_get_overlap_content(content)` (identical in `extrair/chunks.py`,
`extrair/chunkscompleto.py` and `chunks2.py`): if the content fits in the
overlap budget return it whole; otherwise split the trailing
`overlap`-length suffix on sentence boundaries and, when a boundary was
found, return the fragments after the first rejoined with `'. '` plus a
trailing `'.'`; with no boundary return the raw trailing slice. -/
def getOverlapContent (overlap : Nat) (content : List Char) : List Char :=
  if content.length ≤ overlap then content
  else
    let sentences := pySentSplit (content.drop (content.length - overlap))
    if 1 < sentences.length then joinDot sentences.tail ++ ['.']
    else pyNegSlice overlap content

/-! ### Length accounting for the sentence splitter (claim C1) -/

/-- Total length of fragments when rejoined with a two-character separator:
the sum of the fragment lengths plus 2 between consecutive fragments. -/
def fragsLen (xs : List (List Char)) : Nat :=
  (xs.map List.length).sum + 2 * (xs.length - 1)

theorem joinDot_length : ∀ xs : List (List Char), xs ≠ [] →
    (joinDot xs).length = (xs.map List.length).sum + 2 * (xs.length - 1)
  | [], h => absurd rfl h
  | [x], _ => by simp [joinDot, fragsLen]
  | x :: y :: rest, _ => by
    have ih := joinDot_length (y :: rest) (by simp)
    simp only [joinDot, List.length_append, List.length_cons, ih,
      List.map_cons, List.sum_cons, List.length_map]
    omega

theorem fragsLen_append_single (done : List (List Char)) (x : List Char) :
    fragsLen (done ++ [x]) = (done.map List.length).sum + x.length + 2 * done.length := by
  simp only [fragsLen, List.map_append, List.sum_append, List.length_append,
    List.map_cons, List.map_nil, List.sum_cons, List.sum_nil, List.length_cons,
    List.length_nil]
  omega

/-- The split of a string never "creates" length: the fragments, counted
with two characters per separator, fit in the input. -/
theorem splitStep_fragsLen : ∀ (l : List Char) (b : Bool) (acc : List Char)
    (done : List (List Char)),
    fragsLen (splitStep l b acc done) ≤
      (done.map List.length).sum + 2 * done.length + acc.length + l.length := by
  intro l
  induction l with
  | nil =>
    intro b acc done
    simp only [splitStep, fragsLen_append_single, List.length_nil,
      List.length_reverse]
    omega
  | cons c rest ih =>
    intro b acc done
    cases b with
    | true =>
      by_cases hw : pyWs c = true
      · have := ih true acc done
        simp [splitStep, hw]
        omega
      · have := ih false [c] done
        simp [splitStep, hw]
        simp only [List.length_cons, List.length_nil] at this
        omega
    | false =>
      by_cases hw : pyWs c = true
      · cases acc with
        | nil =>
          have := ih false [c] done
          simp [splitStep, hw]
          simp only [List.length_cons, List.length_nil] at this
          omega
        | cons p acc2 =>
          by_cases hp : sentPunct p = true
          · have := ih true [] (done ++ [acc2.reverse])
            simp [splitStep, hw, hp]
            simp only [List.map_append, List.sum_append, List.length_append,
              List.map_cons, List.map_nil, List.sum_cons, List.sum_nil,
              List.length_cons, List.length_nil, List.length_reverse] at this
            omega
          · have := ih false (c :: p :: acc2) done
            simp [splitStep, hw, hp]
            simp only [List.length_cons] at this
            omega
      · have := ih false (c :: acc) done
        simp [splitStep, hw]
        simp only [List.length_cons] at this
        omega

theorem pySentSplit_fragsLen (l : List Char) : fragsLen (pySentSplit l) ≤ l.length := by
  have := splitStep_fragsLen l false [] []
  simpa [pySentSplit] using this

/-- The splitter always returns at least one fragment. -/
theorem splitStep_ne_nil : ∀ (l : List Char) (b : Bool) (acc : List Char)
    (done : List (List Char)), splitStep l b acc done ≠ [] := by
  intro l
  induction l with
  | nil => intro b acc done; simp [splitStep]
  | cons c rest ih =>
    intro b acc done
    cases b with
    | true =>
      by_cases hw : pyWs c = true
      · simpa [splitStep, hw] using ih true acc done
      · simpa [splitStep, hw] using ih false [c] done
    | false =>
      by_cases hw : pyWs c = true
      · cases acc with
        | nil => simpa [splitStep, hw] using ih false [c] done
        | cons p acc2 =>
          by_cases hp : sentPunct p = true
          · simpa [splitStep, hw, hp] using ih true [] (done ++ [acc2.reverse])
          · simpa [splitStep, hw, hp] using ih false (c :: p :: acc2) done
      · simpa [splitStep, hw] using ih false (c :: acc) done

/-- Claim C1, counterexample.  For `X = "ab. cd"` and `overlap = 4` the
computed seed is `"cd."`, which is not a suffix of `X` (the split-and-rejoin
branch replaces the matched delimiter and appends a period). -/
theorem C1_counterexample :
    getOverlapContent 4 ['a', 'b', '.', ' ', 'c', 'd'] = ['c', 'd', '.'] ∧
    4 < ([ 'a', 'b', '.', ' ', 'c', 'd'] : List Char).length ∧
    ¬ List.IsSuffix (getOverlapContent 4 ['a', 'b', '.', ' ', 'c', 'd'])
        ['a', 'b', '.', ' ', 'c', 'd'] := by
  refine ⟨by decide, by decide, ?_⟩
  decide

/-- Claim C1, amended: for `0 < overlap < len X` the seed has length at
most `overlap`; when the trailing `overlap`-length suffix of `X` contains no
sentence boundary the seed is exactly that raw suffix (hence a suffix of
`X`); when a boundary exists the seed is the post-first fragments rejoined
with `'. '` plus a trailing `'.'`, which need not be a suffix of `X`. -/
theorem C1_overlap_amended (overlap : Nat) (X : List Char)
    (hpos : 0 < overlap) (hlt : overlap < X.length) :
    (getOverlapContent overlap X).length ≤ overlap ∧
    ((pySentSplit (X.drop (X.length - overlap))).length ≤ 1 →
      getOverlapContent overlap X = X.drop (X.length - overlap)) ∧
    (1 < (pySentSplit (X.drop (X.length - overlap))).length →
      getOverlapContent overlap X =
        joinDot (pySentSplit (X.drop (X.length - overlap))).tail ++ ['.']) := by
  have hnotle : ¬ X.length ≤ overlap := by omega
  have hsuffixlen : (X.drop (X.length - overlap)).length = overlap := by
    simp only [List.length_drop]
    omega
  refine ⟨?_, ?_, ?_⟩
  · by_cases hs : 1 < (pySentSplit (X.drop (X.length - overlap))).length
    · -- boundary branch: split-and-rejoin shrinks by at least one character
      simp only [getOverlapContent, hnotle, if_false, hs, if_true]
      obtain ⟨s0, t, hst⟩ : ∃ s0 t, pySentSplit (X.drop (X.length - overlap)) = s0 :: t := by
        cases h : pySentSplit (X.drop (X.length - overlap)) with
        | nil => exact absurd h (splitStep_ne_nil _ _ _ _)
        | cons s0 t => exact ⟨s0, t, rfl⟩
      have htne : t ≠ [] := by
        intro h
        rw [hst, h] at hs
        simp at hs
      have hfl : fragsLen (s0 :: t) ≤ overlap := by
        have := pySentSplit_fragsLen (X.drop (X.length - overlap))
        rw [hst] at this
        omega
      have hjl := joinDot_length t htne
      have htlen : 1 ≤ t.length := by
        cases t with
        | nil => exact absurd rfl htne
        | cons a b => simp
      simp only [hst, List.tail_cons, List.length_append, hjl,
        List.length_singleton]
      simp only [fragsLen, List.map_cons, List.sum_cons, List.length_cons] at hfl
      omega
    · -- no boundary: raw trailing slice, of length exactly `overlap`
      simp only [getOverlapContent, hnotle, if_false, hs, if_false, pyNegSlice]
      have : ¬ overlap = 0 := by omega
      simp only [this, if_false, List.length_drop]
      omega
  · intro h
    have hs : ¬ 1 < (pySentSplit (X.drop (X.length - overlap))).length := by omega
    simp only [getOverlapContent, hnotle, if_false, hs, if_false, pyNegSlice]
    have : ¬ overlap = 0 := by omega
    simp only [this, if_false]
  · intro hs
    simp only [getOverlapContent, hnotle, if_false, hs, if_true]

/-- Witness for the amended claim C1, at `overlap = 4`,
`X = "this is hot"` (no sentence boundary in the suffix). -/
theorem C1_witness :
    0 < 4 ∧ 4 < (['t', 'h', 'i', 's', ' ', 'i', 's', ' ', 'h', 'o', 't'] : List Char).length ∧
    ((getOverlapContent 4 ['t', 'h', 'i', 's', ' ', 'i', 's', ' ', 'h', 'o', 't']).length ≤ 4 ∧
      ((pySentSplit ((['t', 'h', 'i', 's', ' ', 'i', 's', ' ', 'h', 'o', 't'] : List Char).drop
          ((['t', 'h', 'i', 's', ' ', 'i', 's', ' ', 'h', 'o', 't'] : List Char).length - 4))).length ≤ 1 →
        getOverlapContent 4 ['t', 'h', 'i', 's', ' ', 'i', 's', ' ', 'h', 'o', 't'] =
          (['t', 'h', 'i', 's', ' ', 'i', 's', ' ', 'h', 'o', 't'] : List Char).drop
            ((['t', 'h', 'i', 's', ' ', 'i', 's', ' ', 'h', 'o', 't'] : List Char).length - 4)) ∧
      (1 < (pySentSplit ((['t', 'h', 'i', 's', ' ', 'i', 's', ' ', 'h', 'o', 't'] : List Char).drop
          ((['t', 'h', 'i', 's', ' ', 'i', 's', ' ', 'h', 'o', 't'] : List Char).length - 4))).length →
        getOverlapContent 4 ['t', 'h', 'i', 's', ' ', 'i', 's', ' ', 'h', 'o', 't'] =
          joinDot (pySentSplit ((['t', 'h', 'i', 's', ' ', 'i', 's', ' ', 'h', 'o', 't'] : List Char).drop
            ((['t', 'h', 'i', 's', ' ', 'i', 's', ' ', 'h', 'o', 't'] : List Char).length - 4))).tail ++ ['.'])) :=
  ⟨by decide, by decide,
    C1_overlap_amended 4 ['t', 'h', 'i', 's', ' ', 'i', 's', ' ', 'h', 'o', 't']
      (by decide) (by decide)⟩

/-! ### The basic chunk builder (`create_content_chunks`)

Embedding of `PDFToChunksExtractor.create_content_chunks` of
`extrair/chunks.py` (lines 390-503); the SQL-integrated variant in
`extrair/chunkscompleto.py` (lines 416-515) runs the identical loop (its
only difference, the `total_content` argument of `_finalize_chunk`, feeds
the float-formatted `document_position` string, which is not modelled).
Per-page input: the `visualCtx` field stands for the `visual_context`
annotation string the loop computes from the page's images/tables before
processing blocks (lines 422-430, pure string formatting of counts); the
loop consumes it once, on the first heading/paragraph block of the page.
The `context` strings `document_position` (float formatting) and
`section_context` (the float-scored classifier, modelled separately at the
score level) are not carried in the chunk record. -/

/-- The closed set of element/block type tags occurring in the sources. -/
inductive EType where
  | heading | paragraph | listItem | tableData | footnote | label
  | textBlock | image | caption | date | disclaimer | pageNumber | other
deriving DecidableEq, Repr

/-- One structured block of a page (source: the dicts built in
`extract_page_elements`); `idn` is the opaque block identifier, a
`"page_i_block_j"` string in the source. -/
structure Block where
  idn : Nat
  btype : EType
  content : List Char
deriving DecidableEq, Repr

/-- One page of extracted elements, as consumed by `create_content_chunks`. -/
structure Page where
  pageNumber : Nat
  visualCtx : List Char
  blocks : List Block
deriving DecidableEq, Repr

/-- The three size parameters of the extractor classes (`chunk_size`,
`overlap`, `min_chunk_size`; constructor defaults 1000 / 200 / 100). -/
structure ChunkCfg where
  chunkSize : Nat
  overlap : Nat
  minChunkSize : Nat
deriving DecidableEq, Repr

/-- The open accumulator (`current_chunk` minus derived fields). -/
structure CurChunk where
  content : List Char
  pages : List Nat
  elements : List Nat
  contentTypes : List EType
  prevSummary : List Char
deriving DecidableEq, Repr

/-- A finalized chunk of `create_content_chunks` (derived counts computed
by `_finalize_chunk`; `position`, `prevId`, `nextId` are populated by the
second linking pass). -/
structure PyChunk where
  idn : Nat
  content : List Char
  pages : List Nat
  elements : List Nat
  contentTypes : List EType
  wordCount : Nat
  charCount : Nat
  prevSummary : List Char
  position : Nat × Nat
  prevId : Option Nat
  nextId : Option Nat
deriving DecidableEq, Repr

/-- Loop state of `create_content_chunks`. -/
structure BState where
  chunks : List PyChunk
  counter : Nat
  cur : CurChunk
deriving DecidableEq, Repr

/-- `_create_chunk_summary(content)`: the content verbatim when it has at
most 20 words, else the first ten words, `" ... "`, and the last ten. -/
def createChunkSummary (content : List Char) : List Char :=
  let ws := pySplitWs content
  if ws.length ≤ 20 then content
  else
    List.intercalate [' '] (ws.take 10) ++ (" ... ".toList) ++
      List.intercalate [' '] (ws.drop (ws.length - 10))

/-- `_finalize_chunk`: stamp the id and the derived word/char counts. -/
def finalizeCur (counter : Nat) (cur : CurChunk) : PyChunk :=
  { idn := counter, content := cur.content, pages := cur.pages,
    elements := cur.elements, contentTypes := cur.contentTypes,
    wordCount := pyWordCount cur.content, charCount := cur.content.length,
    prevSummary := cur.prevSummary, position := (0, 0),
    prevId := none, nextId := none }

/-- `content_with_context`: the block content, with the page's pending
visual-context annotation appended once for heading/paragraph blocks. -/
def cwcOf (b : Block) (vctx : List Char) : List Char :=
  if vctx ≠ [] ∧ (b.btype = EType.heading ∨ b.btype = EType.paragraph) then
    b.content ++ vctx
  else b.content

/-- One iteration of the block loop of `create_content_chunks`
(lines 433-486): boundary check, finalize-and-reseed on a boundary, then
append the block's content and metadata to the accumulator. -/
def stepBlock (cfg : ChunkCfg) (pageNum : Nat) :
    BState × List Char → Block → BState × List Char :=
  fun (st, vctx) b =>
    let cwc := cwcOf b vctx
    let vctx' :=
      if vctx ≠ [] ∧ (b.btype = EType.heading ∨ b.btype = EType.paragraph) then []
      else vctx
    let st1 :=
      if cfg.chunkSize < st.cur.content.length + cwc.length ∧
          cfg.minChunkSize < st.cur.content.length then
        { chunks := st.chunks ++ [finalizeCur st.counter st.cur],
          counter := st.counter + 1,
          cur := { content := getOverlapContent cfg.overlap st.cur.content,
                   pages := [pageNum], elements := [b.idn],
                   contentTypes := [b.btype],
                   prevSummary := createChunkSummary st.cur.content } }
      else st
    let cur2 : CurChunk :=
      { content := (if st1.cur.content ≠ [] then st1.cur.content ++ nl2
                    else st1.cur.content) ++ cwc,
        pages := if pageNum ∈ st1.cur.pages then st1.cur.pages
                 else st1.cur.pages ++ [pageNum],
        elements := st1.cur.elements ++ [b.idn],
        contentTypes := if b.btype ∈ st1.cur.contentTypes then st1.cur.contentTypes
                        else st1.cur.contentTypes ++ [b.btype],
        prevSummary := st1.cur.prevSummary }
    ({ st1 with cur := cur2 }, vctx')

/-- Process one page: fold its blocks, threading the one-shot visual
context. -/
def stepPage (cfg : ChunkCfg) (st : BState) (p : Page) : BState :=
  (p.blocks.foldl (stepBlock cfg p.pageNumber) (st, p.visualCtx)).1

/-- Initial loop state (empty accumulator, counter 1). -/
def initBState : BState :=
  { chunks := [], counter := 1,
    cur := { content := [], pages := [], elements := [],
             contentTypes := [], prevSummary := [] } }

/-- Final flush (lines 488-491): finalize the last accumulator if its
stripped content is non-empty. -/
def flushB (st : BState) : List PyChunk :=
  if pyStrip st.cur.content ≠ [] then st.chunks ++ [finalizeCur st.counter st.cur]
  else st.chunks

/-- Second pass (lines 496-501): chunk `i` of `n` gets position `(i+1, n)`
and links to its neighbours' ids. -/
def enrichAt (n : Nat) (all : List PyChunk) (i : Nat) (c : PyChunk) : PyChunk :=
  { c with position := (i + 1, n),
           prevId := if i = 0 then none else (all.get? (i - 1)).map PyChunk.idn,
           nextId := if i + 1 < n then (all.get? (i + 1)).map PyChunk.idn
                     else none }

/-- Apply `enrichAt` to positions `i, i+1, ...` of a sublist. -/
def enrichFrom (n : Nat) (all : List PyChunk) : Nat → List PyChunk → List PyChunk
  | _, [] => []
  | i, c :: rest => enrichAt n all i c :: enrichFrom n all (i + 1) rest

/-- `create_content_chunks(all_elements)` of `extrair/chunks.py` /
`extrair/chunkscompleto.py`: the block loop over all pages, the final
flush, and the neighbour-linking pass. -/
def createContentChunks (cfg : ChunkCfg) (pages : List Page) : List PyChunk :=
  let raw := flushB (pages.foldl (stepPage cfg) initBState)
  enrichFrom raw.length raw 0 raw

/-! ### Structural lemmas about the basic chunk builder -/

theorem enrichAt_content (n : Nat) (all : List PyChunk) (i : Nat) (c : PyChunk) :
    (enrichAt n all i c).content = c.content := rfl

theorem enrichAt_charCount (n : Nat) (all : List PyChunk) (i : Nat) (c : PyChunk) :
    (enrichAt n all i c).charCount = c.charCount := rfl

theorem enrichFrom_length (n : Nat) (all : List PyChunk) :
    ∀ (l : List PyChunk) (i : Nat), (enrichFrom n all i l).length = l.length := by
  intro l
  induction l with
  | nil => intro i; rfl
  | cons c rest ih => intro i; simp [enrichFrom, ih]

theorem enrichFrom_getElem? (n : Nat) (all : List PyChunk) :
    ∀ (l : List PyChunk) (i j : Nat),
    (enrichFrom n all i l)[j]? = (l[j]?).map (fun c => enrichAt n all (i + j) c) := by
  intro l
  induction l with
  | nil => intro i j; simp [enrichFrom]
  | cons c rest ih =>
    intro i j
    cases j with
    | zero => simp [enrichFrom]
    | succ j =>
      simp only [enrichFrom, List.getElem?_cons_succ, ih (i + 1) j]
      have : i + 1 + j = i + (j + 1) := by omega
      rw [this]

/-- Every chunk appended to the growing list during the block loop is a
`finalizeCur` of an accumulator that passed the boundary guard; any property
of such chunks is preserved by the whole fold. -/
theorem foldPages_chunks_inv (cfg : ChunkCfg) (P : PyChunk → Prop)
    (hP : ∀ (counter : Nat) (cur : CurChunk),
      cfg.minChunkSize < cur.content.length → P (finalizeCur counter cur)) :
    ∀ (pages : List Page) (st : BState),
    (∀ c ∈ st.chunks, P c) →
    ∀ c ∈ (pages.foldl (stepPage cfg) st).chunks, P c := by
  have hblock : ∀ (pageNum : Nat) (bs : List Block) (p : BState × List Char),
      (∀ c ∈ p.1.chunks, P c) →
      ∀ c ∈ (bs.foldl (stepBlock cfg pageNum) p).1.chunks, P c := by
    intro pageNum bs
    induction bs with
    | nil => intro p hp; exact hp
    | cons b rest ih =>
      intro p hp
      obtain ⟨st, vctx⟩ := p
      refine ih (stepBlock cfg pageNum (st, vctx) b) ?_
      by_cases hb : cfg.chunkSize < st.cur.content.length + (cwcOf b vctx).length ∧
          cfg.minChunkSize < st.cur.content.length
      · intro c hc
        simp only [stepBlock, hb, if_true] at hc
        rcases List.mem_append.mp hc with h | h
        · exact hp c h
        · rcases List.mem_singleton.mp h with rfl
          exact hP st.counter st.cur hb.2
      · intro c hc
        simp only [stepBlock, hb, if_false] at hc
        exact hp c hc
  intro pages
  induction pages with
  | nil => intro st hst; exact hst
  | cons p rest ih =>
    intro st hst
    exact ih (stepPage cfg st p) (hblock p.pageNumber p.blocks (st, p.visualCtx) hst)

/-- Chunks of the flushed list: either from the loop's list, or the one
final `finalizeCur` of the leftover accumulator. -/
theorem flushB_mem (st : BState) (c : PyChunk) (hc : c ∈ flushB st) :
    c ∈ st.chunks ∨ c = finalizeCur st.counter st.cur := by
  by_cases h : pyStrip st.cur.content ≠ []
  · have hf : flushB st = st.chunks ++ [finalizeCur st.counter st.cur] := by
      simp [flushB, h]
    rw [hf] at hc
    rcases List.mem_append.mp hc with h' | h'
    · exact Or.inl h'
    · exact Or.inr (List.mem_singleton.mp h')
  · have hf : flushB st = st.chunks := by simp [flushB, h]
    rw [hf] at hc
    exact Or.inl hc

/-- Claim C5 (confirmed).  In `create_content_chunks`, every finalized
chunk except possibly the first and the last has content length strictly
greater than `min_chunk_size`: a chunk other than the final flush is only
emitted when the boundary guard `len(acc)+len(C) > chunk_size` **and**
`len(acc) > min_chunk_size` held. -/
theorem C5_size_bound (cfg : ChunkCfg) (pages : List Page) (i : Nat) (c : PyChunk)
    (hget : (createContentChunks cfg pages)[i]? = some c)
    (hfirst : 0 < i)
    (hlast : i + 1 < (createContentChunks cfg pages).length) :
    cfg.minChunkSize < c.content.length := by
  unfold createContentChunks at hget hlast
  rw [enrichFrom_getElem?] at hget
  rw [enrichFrom_length] at hlast
  obtain ⟨c0, hc0, rfl⟩ := Option.map_eq_some'.mp hget
  rw [enrichAt_content]
  set st := pages.foldl (stepPage cfg) initBState with hst
  have hbig : ∀ d ∈ st.chunks, cfg.minChunkSize < d.content.length := by
    refine foldPages_chunks_inv cfg _ ?_ pages initBState ?_
    · intro counter cur h
      simpa [finalizeCur] using h
    · intro d hd
      simp [initBState] at hd
  have hc0mem : c0 ∈ st.chunks := by
    by_cases h : pyStrip st.cur.content ≠ []
    · have hf : flushB st = st.chunks ++ [finalizeCur st.counter st.cur] := by
        simp [flushB, h]
      rw [hf] at hc0 hlast
      rw [List.length_append, List.length_singleton] at hlast
      have hi : i < st.chunks.length := by omega
      rw [List.getElem?_append_left hi] at hc0
      exact List.getElem?_mem hc0
    · have hf : flushB st = st.chunks := by simp [flushB, h]
      rw [hf] at hc0
      exact List.getElem?_mem hc0
  exact hbig c0 hc0mem

/-- Concrete input for the claim C5 witness: one page, three paragraph
blocks of six characters each, `chunk_size = 10`, `overlap = 4`,
`min_chunk_size = 3`; the run produces three chunks. -/
def c5pages : List Page :=
  [{ pageNumber := 1, visualCtx := [],
     blocks := [{ idn := 1, btype := EType.paragraph, content := List.replicate 6 'a' },
                { idn := 2, btype := EType.paragraph, content := List.replicate 6 'b' },
                { idn := 3, btype := EType.paragraph, content := List.replicate 6 'c' }] }]

/-- Witness for claim C5: the middle chunk of the three-chunk run exceeds
`min_chunk_size = 3`. -/
theorem C5_witness :
    ∃ c, (createContentChunks ⟨10, 4, 3⟩ c5pages)[1]? = some c ∧ 3 < c.content.length := by
  cases h : (createContentChunks ⟨10, 4, 3⟩ c5pages)[1]? with
  | none => exact absurd h (by decide)
  | some c =>
    exact ⟨c, rfl, C5_size_bound ⟨10, 4, 3⟩ c5pages 1 c h (by decide) (by decide)⟩

/-- Claim C6 (confirmed).  A single element larger than `chunk_size` is
emitted whole as exactly one chunk: the boundary guard needs the
accumulator (empty at that point) to exceed `min_chunk_size`, so it cannot
fire, and the element is never split. -/
theorem C6_oversized_single (cfg : ChunkCfg) (b : Block) (pnum : Nat)
    (hbig : cfg.chunkSize < b.content.length)
    (hne : pyStrip b.content ≠ []) :
    (createContentChunks cfg [{ pageNumber := pnum, visualCtx := [], blocks := [b] }]).map
      PyChunk.content = [b.content] := by
  simp [createContentChunks, stepPage, stepBlock, cwcOf, initBState, flushB, hne,
    enrichFrom, enrichAt, finalizeCur]

set_option maxRecDepth 100000 in
/-- Witness for claim C6: the spec's Scenario C, a 500-character element
with `chunk_size = 100`. -/
theorem C6_witness :
    100 < (List.replicate 500 'a').length ∧
    pyStrip (List.replicate 500 'a') ≠ [] ∧
    (createContentChunks ⟨100, 20, 100⟩
        [{ pageNumber := 1, visualCtx := [],
           blocks := [{ idn := 1, btype := EType.paragraph,
                        content := List.replicate 500 'a' }] }]).map
      PyChunk.content = [List.replicate 500 'a'] :=
  ⟨by decide, by decide,
    C6_oversized_single ⟨100, 20, 100⟩
      { idn := 1, btype := EType.paragraph, content := List.replicate 500 'a' } 1
      (by decide) (by decide)⟩

/-- Claim C8 (confirmed).  An input with no blocks (zero pages, or pages
with zero blocks) yields an empty chunk list; the embedding is total, so no
error is raised. -/
theorem C8_empty_input (cfg : ChunkCfg) (pages : List Page)
    (h : ∀ p ∈ pages, p.blocks = []) :
    createContentChunks cfg pages = [] := by
  have hfold : ∀ (ps : List Page), (∀ p ∈ ps, p.blocks = []) →
      ∀ st : BState, ps.foldl (stepPage cfg) st = st := by
    intro ps
    induction ps with
    | nil => intro _ st; rfl
    | cons p rest ih =>
      intro hps st
      have hp : p.blocks = [] := hps p (by simp)
      have : stepPage cfg st p = st := by simp [stepPage, hp]
      rw [List.foldl_cons, this]
      exact ih (fun q hq => hps q (by simp [hq])) st
  unfold createContentChunks
  rw [hfold pages h initBState]
  simp [flushB, initBState, pyStrip, enrichFrom]

/-- Witness for claim C8: one page carrying zero blocks. -/
theorem C8_witness :
    createContentChunks ⟨1000, 200, 100⟩ [{ pageNumber := 1, visualCtx := [], blocks := [] }] = [] :=
  C8_empty_input ⟨1000, 200, 100⟩ [{ pageNumber := 1, visualCtx := [], blocks := [] }]
    (by intro p hp; simp at hp; rw [hp])

/-- Claim C10 (confirmed).  When the boundary guard fires at block `b`, the
freshly seeded accumulator's metadata lists the triggering block's id
exactly twice — once from the reseed's initialization and once from the
unconditional append — while its page number and content type, being
membership-checked before appending, each appear exactly once. -/
theorem C10_boundary_metadata (cfg : ChunkCfg) (pageNum : Nat) (st : BState)
    (vctx : List Char) (b : Block)
    (hb : cfg.chunkSize < st.cur.content.length + (cwcOf b vctx).length ∧
          cfg.minChunkSize < st.cur.content.length) :
    ((stepBlock cfg pageNum (st, vctx) b).1).cur.elements = [b.idn, b.idn] ∧
    ((stepBlock cfg pageNum (st, vctx) b).1).cur.pages = [pageNum] ∧
    ((stepBlock cfg pageNum (st, vctx) b).1).cur.contentTypes = [b.btype] := by
  simp [stepBlock, hb]

/-- Witness for claim C10: a six-character accumulator and a six-character
block under `chunk_size = 10`, `min_chunk_size = 3`. -/
theorem C10_witness :
    (10 : Nat) < (List.replicate 6 'a').length + (cwcOf
        { idn := 7, btype := EType.paragraph, content := List.replicate 6 'b' } []).length ∧
    (3 : Nat) < (List.replicate 6 'a').length ∧
    ((stepBlock ⟨10, 4, 3⟩ 2
        ({ chunks := [], counter := 1,
           cur := { content := List.replicate 6 'a', pages := [1], elements := [5],
                    contentTypes := [EType.paragraph], prevSummary := [] } }, [])
        { idn := 7, btype := EType.paragraph, content := List.replicate 6 'b' }).1).cur.elements
      = [7, 7] := by
  refine ⟨by decide, by decide, ?_⟩
  exact (C10_boundary_metadata ⟨10, 4, 3⟩ 2
    { chunks := [], counter := 1,
      cur := { content := List.replicate 6 'a', pages := [1], elements := [5],
               contentTypes := [EType.paragraph], prevSummary := [] } } []
    { idn := 7, btype := EType.paragraph, content := List.replicate 6 'b' }
    ⟨by decide, by decide⟩).1

/-! ### Title-only section classifier (`_classify_section_type`, chunks2.py)

The per-category patterns of `_classify_section_type` (lines 263-307) use
only a small regex fragment: literal characters, `\s+`, a single optional
trailing character (`S?`), and alternation of such sequences.  The matcher
below implements exactly that fragment with a fuel-indexed backtracking
search so that the recursion is structural and reduces under `decide`.
Every recursive call strictly decreases the sum of the remaining token size
(counting alternation branches) and the remaining input length; for the
fixed pattern table that sum is below `200 + length of the input`, so the
fuel supplied by `rsearch` never runs out. -/

/-- Tokens of the regex fragment used by the section patterns. -/
inductive RTok where
  | lit : Char → RTok
  | wsPlus : RTok
  | opt : Char → RTok
  | alt : List (List RTok) → RTok

/-- Match a token sequence against a prefix of the input (backtracking,
fuel-indexed). -/
def rmatch : Nat → List RTok → List Char → Bool
  | 0, _, _ => false
  | _ + 1, [], _ => true
  | fuel + 1, RTok.lit c :: ts, l =>
    match l with
    | d :: rest => c == d && rmatch fuel ts rest
    | [] => false
  | fuel + 1, RTok.wsPlus :: ts, l =>
    match l with
    | d :: rest => pyWs d && (rmatch fuel ts rest || rmatch fuel (RTok.wsPlus :: ts) rest)
    | [] => false
  | fuel + 1, RTok.opt c :: ts, l =>
    (match l with
     | d :: rest => c == d && rmatch fuel ts rest
     | [] => false) || rmatch fuel ts l
  | fuel + 1, RTok.alt bs :: ts, l => bs.any (fun b => rmatch fuel (b ++ ts) l)

/-- `re.search`: try a match at every start position (including the end of
the string, as `re.search` does). -/
def rsearch (ts : List RTok) : List Char → Bool
  | [] => rmatch 200 ts []
  | l@(_ :: rest) => rmatch (200 + l.length) ts l || rsearch ts rest

/-- Literal-word token sequence. -/
def lits (s : String) : List RTok := s.toList.map RTok.lit

/-- The ordered category/pattern table of `_classify_section_type`
(Python 3.7+ dicts iterate in insertion order). -/
def sectionPatterns : List (String × List (List RTok)) :=
  [(("executive_summary"),
    [lits ("EXECUTIVE") ++ [RTok.wsPlus] ++ lits ("SUMMARY"),
     lits ("SUMMARY"), lits ("OVERVIEW")]),
   (("investment_strategy"),
    [lits ("INVESTMENT") ++ [RTok.wsPlus] ++
       [RTok.alt [lits ("STRATEGY"), lits ("APPROACH"), lits ("OBJECTIVE")]],
     lits ("STRATEGY"), lits ("APPROACH"), lits ("METHODOLOGY")]),
   (("fund_information"),
    [lits ("FUND") ++ [RTok.wsPlus] ++
       [RTok.alt [lits ("INFORMATION"), lits ("DETAILS"), lits ("FACTS")]],
     lits ("SHARE") ++ [RTok.wsPlus] ++ lits ("CLASS"),
     lits ("FUND") ++ [RTok.wsPlus] ++ lits ("OVERVIEW")]),
   (("performance"),
    [lits ("PERFORMANCE"),
     lits ("RETURN") ++ [RTok.opt 'S'],
     lits ("TRACK") ++ [RTok.wsPlus] ++ lits ("RECORD")]),
   (("risk_factors"),
    [lits ("RISK") ++ [RTok.wsPlus] ++
       [RTok.alt [lits ("FACTOR") ++ [RTok.opt 'S'], lits ("WARNING"), lits ("DISCLOSURE")]],
     lits ("IMPORTANT") ++ [RTok.wsPlus] ++ lits ("NOTICE") ++ [RTok.opt 'S'],
     lits ("WARNING")]),
   (("legal"),
    [lits ("LEGAL"), lits ("REGULATORY"), lits ("DISCLAIMER"),
     lits ("TERMS") ++ [RTok.wsPlus] ++ lits ("AND") ++ [RTok.wsPlus] ++ lits ("CONDITIONS")]),
   (("fees"),
    [lits ("FEE"), lits ("COST"), lits ("EXPENSE"), lits ("CHARGE")]),
   (("contact"),
    [lits ("CONTACT"), lits ("ADDRESS"), lits ("ADMINISTRATOR")])]

/-- `_classify_section_type(title)`: uppercase the title (ASCII data), try
the categories in declaration order, return the first whose pattern list
has a match; default `"general"`. -/
def classifySectionType (title : List Char) : String :=
  let tu := title.map Char.toUpper
  match sectionPatterns.find? (fun cat => cat.2.any (fun p => rsearch p tu)) with
  | some cat => cat.1
  | none => ("general")

/-! ### The Docling-variant chunk builder (`_create_chunks_from_docling`)

Embedding of `EnhancedPDFExtractor._create_chunks_from_docling` and
`_create_chunk_from_content` of `chunks2.py` (lines 456-562).  Omitted
chunk fields: `structural_confidence` (a floating-point mean of the
elements' confidences), the float-formatted `document_position` string, the
constant context flags, and `hierarchy_path` (it reads the separately
modelled `document_structures`; see the hierarchy section below).  The
`pages` and `content_types` metadata are materialized through a Python
`set` in the source, whose iteration order is unspecified; the embedding
keeps first-occurrence order, and no claim depends on that order. -/

/-- A structural element of the Docling extraction (`text_blocks` entries
built by `_process_docling_element`); `confidence` is an opaque tag here
(a float in the source, only ever passed through). -/
structure DocElem where
  idn : Nat
  dtype : EType
  content : List Char
  level : Nat
  page : Nat
  confidence : Nat
deriving DecidableEq, Repr

/-- First-occurrence deduplication (stands for Python's `list(set(xs))`,
which has unspecified order). -/
def dedupFO {α : Type} [DecidableEq α] : List α → List α
  | [] => []
  | x :: xs => x :: (dedupFO xs).filter (fun y => decide (y ≠ x))

/-- `_determine_position_in_section(elements)`. -/
def positionInSectionOf (elements : List DocElem) : String :=
  if elements.isEmpty then ("unknown")
  else
    let hasH := elements.any (fun e => decide (e.dtype = EType.heading))
    let hasP := elements.any (fun e => decide (e.dtype = EType.paragraph))
    if hasH && hasP then ("section_start")
    else if hasH then ("section_header")
    else if hasP then ("section_body")
    else ("section_content")

/-- A chunk of the Docling path (`_create_chunk_from_content`): note that
`content` is stored stripped while `charCount` is computed on the pre-strip
accumulator string. -/
structure DChunk where
  idn : Nat
  content : List Char
  wordCount : Nat
  charCount : Nat
  pages : List Nat
  elements : List Nat
  contentTypes : List EType
  sectionTitle : List Char
  sectionType : String
  sectionLevel : Nat
  positionInSection : String
deriving DecidableEq, Repr

/-- `_create_chunk_from_content(content, section, elements, chunk_id)`. -/
def mkDChunk (content : List Char) (sec : Option DocElem)
    (elements : List DocElem) (cid : Nat) : DChunk :=
  { idn := cid,
    content := pyStrip content,
    wordCount := pyWordCount content,
    charCount := content.length,
    pages := dedupFO ((elements.filter (fun e => decide (e.page ≠ 0))).map DocElem.page),
    elements := elements.map DocElem.idn,
    contentTypes := dedupFO (elements.map DocElem.dtype),
    sectionTitle := match sec with | some s => s.content | none => [],
    sectionType := match sec with
                   | some s => classifySectionType s.content
                   | none => ("general_content"),
    sectionLevel := match sec with | some s => s.level | none => 0,
    positionInSection := positionInSectionOf elements }

/-- Loop state of `_create_chunks_from_docling`. -/
structure DState where
  chunks : List DChunk
  cur : List Char
  curElems : List DocElem
  curSection : Option DocElem
deriving DecidableEq, Repr

/-- One iteration of `_create_chunks_from_docling` (lines 463-504): a
heading finalizes a non-empty accumulator and becomes the section context;
the boundary check finalizes and reseeds with the overlap; the element's
content and metadata are then appended. -/
def doclingStep (cfg : ChunkCfg) (st : DState) (e : DocElem) : DState :=
  let st1 :=
    if e.dtype = EType.heading then
      if pyStrip st.cur ≠ [] then
        { chunks := st.chunks ++ [mkDChunk st.cur st.curSection st.curElems (st.chunks.length + 1)],
          cur := [], curElems := [], curSection := some e }
      else { st with curSection := some e }
    else st
  let st2 :=
    if cfg.chunkSize < st1.cur.length + e.content.length ∧
        cfg.minChunkSize < st1.cur.length then
      { st1 with
        chunks := st1.chunks ++ [mkDChunk st1.cur st1.curSection st1.curElems (st1.chunks.length + 1)],
        cur := getOverlapContent cfg.overlap st1.cur,
        curElems := [] }
    else st1
  { st2 with
    cur := (if st2.cur ≠ [] then st2.cur ++ nl2 else st2.cur) ++ e.content,
    curElems := st2.curElems ++ [e] }

/-- `_create_chunks_from_docling(docling_data)`: fold the element
sequence, then flush a non-empty leftover accumulator. -/
def doclingCreateChunks (cfg : ChunkCfg) (elems : List DocElem) : List DChunk :=
  let st := elems.foldl (doclingStep cfg) { chunks := [], cur := [], curElems := [], curSection := none }
  if pyStrip st.cur ≠ [] then
    st.chunks ++ [mkDChunk st.cur st.curSection st.curElems (st.chunks.length + 1)]
  else st.chunks

/-! ### Claims C2 and C4: char counts and heading handling -/

theorem pyStrip_length_le (l : List Char) : (pyStrip l).length ≤ l.length := by
  unfold pyStrip
  have h1 : ((l.dropWhile pyWs).reverse.dropWhile pyWs).length ≤
      (l.dropWhile pyWs).reverse.length :=
    (List.dropWhile_sublist pyWs).length_le
  have h2 : (l.dropWhile pyWs).length ≤ l.length :=
    (List.dropWhile_sublist pyWs).length_le
  simp only [List.length_reverse] at h1 ⊢
  omega

/-- Every chunk a Docling-path step appends is a `mkDChunk`. -/
theorem doclingStep_mem_chunks (cfg : ChunkCfg) (st : DState) (e : DocElem) (c : DChunk)
    (hc : c ∈ (doclingStep cfg st e).chunks) :
    c ∈ st.chunks ∨ ∃ raw sec els cid, c = mkDChunk raw sec els cid := by
  by_cases h1 : e.dtype = EType.heading
  · by_cases h2 : pyStrip st.cur ≠ []
    · simp [doclingStep, h1, h2] at hc
      rcases hc with h | h
      · exact Or.inl h
      · exact Or.inr ⟨st.cur, st.curSection, st.curElems, st.chunks.length + 1, h⟩
    · by_cases h3 : cfg.chunkSize < st.cur.length + e.content.length ∧
          cfg.minChunkSize < st.cur.length
      · simp [doclingStep, h1, h2, h3] at hc
        rcases hc with h | h
        · exact Or.inl h
        · exact Or.inr ⟨st.cur, some e, st.curElems, st.chunks.length + 1, h⟩
      · simp [doclingStep, h1, h2, h3] at hc
        exact Or.inl hc
  · by_cases h3 : cfg.chunkSize < st.cur.length + e.content.length ∧
        cfg.minChunkSize < st.cur.length
    · simp [doclingStep, h1, h3] at hc
      rcases hc with h | h
      · exact Or.inl h
      · exact Or.inr ⟨st.cur, st.curSection, st.curElems, st.chunks.length + 1, h⟩
    · simp [doclingStep, h1, h3] at hc
      exact Or.inl hc

/-- Every chunk produced by the Docling-path builder is a `mkDChunk`. -/
theorem doclingChunks_mem (cfg : ChunkCfg) (elems : List DocElem) (c : DChunk)
    (hc : c ∈ doclingCreateChunks cfg elems) :
    ∃ raw sec els cid, c = mkDChunk raw sec els cid := by
  have hfold : ∀ (es : List DocElem) (st : DState),
      (∀ d ∈ st.chunks, ∃ raw sec els cid, d = mkDChunk raw sec els cid) →
      ∀ d ∈ (es.foldl (doclingStep cfg) st).chunks,
        ∃ raw sec els cid, d = mkDChunk raw sec els cid := by
    intro es
    induction es with
    | nil => intro st h; exact h
    | cons e rest ih =>
      intro st h
      refine ih (doclingStep cfg st e) ?_
      intro d hd
      rcases doclingStep_mem_chunks cfg st e d hd with h' | h'
      · exact h d h'
      · exact h'
  unfold doclingCreateChunks at hc
  set st := elems.foldl (doclingStep cfg)
    { chunks := [], cur := [], curElems := [], curSection := none } with hst
  have hbase : ∀ d ∈ st.chunks, ∃ raw sec els cid, d = mkDChunk raw sec els cid := by
    refine hfold elems _ ?_
    intro d hd
    simp at hd
  by_cases h : pyStrip st.cur ≠ []
  · rw [if_pos h] at hc
    rcases List.mem_append.mp hc with h' | h'
    · exact hbase c h'
    · exact ⟨st.cur, st.curSection, st.curElems, st.chunks.length + 1,
        List.mem_singleton.mp h'⟩
  · rw [if_neg h] at hc
    exact hbase c hc

/-- Concrete Docling-path input for the claim C2 counterexample: three
paragraphs of 120, 8 and 30 characters with `chunk_size = 150`,
`overlap = 10`: the overlap seed of the second chunk starts with the
`"\n\n"` join separator, which `strip()` later removes from the stored
content but which was counted by `char_count`. -/
def c2elems : List DocElem :=
  [{ idn := 1, dtype := EType.paragraph, content := List.replicate 120 'a',
     level := 0, page := 1, confidence := 5 },
   { idn := 2, dtype := EType.paragraph, content := List.replicate 8 'b',
     level := 0, page := 1, confidence := 5 },
   { idn := 3, dtype := EType.paragraph, content := List.replicate 30 'c',
     level := 0, page := 1, confidence := 5 }]

set_option maxRecDepth 1000000 in
/-- Claim C2, counterexample.  In the Docling-based variant
(`_create_chunk_from_content`), `char_count` is computed on the pre-strip
accumulator while the stored content is stripped: the second chunk of this
run records `char_count = 42` for a 40-character content. -/
theorem C2_counterexample :
    ¬ (∀ c ∈ doclingCreateChunks ⟨150, 10, 100⟩ c2elems,
        c.charCount = c.content.length) ∧
    (doclingCreateChunks ⟨150, 10, 100⟩ c2elems).map
        (fun c => (c.charCount, c.content.length)) = [(130, 130), (42, 40)] := by
  refine ⟨?_, by decide⟩
  decide

/-- Claim C2, amended.  `char_count` always equals the length of the
accumulator at finalize time: in the basic/SQL variants
(`create_content_chunks`) the accumulator is stored verbatim, so
`char_count = length(content)` holds for every chunk; in the Docling-based
variant the stored content is whitespace-stripped after `char_count` is
computed, so only `length(content) ≤ char_count` holds. -/
theorem C2_char_count_amended :
    (∀ (cfg : ChunkCfg) (pages : List Page), ∀ c ∈ createContentChunks cfg pages,
      c.charCount = c.content.length) ∧
    (∀ (cfg : ChunkCfg) (elems : List DocElem), ∀ c ∈ doclingCreateChunks cfg elems,
      c.content.length ≤ c.charCount) := by
  constructor
  · intro cfg pages c hc
    obtain ⟨j, hj⟩ := List.mem_iff_getElem?.mp hc
    unfold createContentChunks at hj
    rw [enrichFrom_getElem?] at hj
    obtain ⟨c0, hc0, rfl⟩ := Option.map_eq_some'.mp hj
    rw [enrichAt_content, enrichAt_charCount]
    have hmem := List.getElem?_mem hc0
    rcases flushB_mem _ c0 hmem with h | h
    · have hinv : ∀ d ∈ (pages.foldl (stepPage cfg) initBState).chunks,
          d.charCount = d.content.length := by
        refine foldPages_chunks_inv cfg _ ?_ pages initBState ?_
        · intro counter cur _; rfl
        · intro d hd; simp [initBState] at hd
      exact hinv c0 h
    · rw [h]; rfl
  · intro cfg elems c hc
    obtain ⟨raw, sec, els, cid, rfl⟩ := doclingChunks_mem cfg elems c hc
    simpa [mkDChunk] using pyStrip_length_le raw

set_option maxRecDepth 1000000 in
/-- Witness for the amended claim C2: a basic-variant chunk with
`char_count = length(content)` and the Docling chunk of the counterexample
input with `length(content) ≤ char_count`. -/
theorem C2_witness :
    (∀ c ∈ createContentChunks ⟨10, 4, 3⟩ c5pages, c.charCount = c.content.length) ∧
    (∀ c ∈ doclingCreateChunks ⟨150, 10, 100⟩ c2elems, c.content.length ≤ c.charCount) :=
  ⟨fun c hc => C2_char_count_amended.1 ⟨10, 4, 3⟩ c5pages c hc,
   fun c hc => C2_char_count_amended.2 ⟨150, 10, 100⟩ c2elems c hc⟩

/-- Claim C4, counterexample.  The basic variant `create_content_chunks`
has no heading handling: a heading arriving on a non-empty accumulator does
not finalize it, so a paragraph followed by a heading yields one merged
chunk and no chunk equal to the pre-heading accumulator `"aaaa"`. -/
theorem C4_counterexample :
    (createContentChunks ⟨1000, 200, 100⟩
        [{ pageNumber := 1, visualCtx := [],
           blocks := [{ idn := 1, btype := EType.paragraph, content := ['a', 'a', 'a', 'a'] },
                      { idn := 2, btype := EType.heading, content := ['R', 'I', 'S', 'K'] }] }]).map
      PyChunk.content = [['a', 'a', 'a', 'a', '\n', '\n', 'R', 'I', 'S', 'K']] ∧
    ['a', 'a', 'a', 'a'] ∉ (createContentChunks ⟨1000, 200, 100⟩
        [{ pageNumber := 1, visualCtx := [],
           blocks := [{ idn := 1, btype := EType.paragraph, content := ['a', 'a', 'a', 'a'] },
                      { idn := 2, btype := EType.heading, content := ['R', 'I', 'S', 'K'] }] }]).map
      PyChunk.content := by
  constructor
  · decide
  · decide

/-- Claim C4, amended.  The heading behaviour holds on the Docling path
(`_create_chunks_from_docling`) only: there, a heading element always
becomes the current section context, and when the (stripped) accumulator is
non-empty it is finalized as a chunk, the accumulator restarts from the
heading's own content, and the elements list restarts with the heading.
The basic variant treats headings like any other block (see the
counterexample). -/
theorem C4_heading_amended (cfg : ChunkCfg) (st : DState) (e : DocElem)
    (hh : e.dtype = EType.heading) :
    (doclingStep cfg st e).curSection = some e ∧
    (pyStrip st.cur ≠ [] →
      (doclingStep cfg st e).chunks =
        st.chunks ++ [mkDChunk st.cur st.curSection st.curElems (st.chunks.length + 1)] ∧
      (doclingStep cfg st e).cur = e.content ∧
      (doclingStep cfg st e).curElems = [e]) := by
  by_cases h2 : pyStrip st.cur ≠ []
  · constructor
    · simp [doclingStep, hh, h2]
    · intro _
      refine ⟨?_, ?_, ?_⟩ <;> simp [doclingStep, hh, h2]
  · constructor
    · by_cases h3 : cfg.chunkSize < st.cur.length + e.content.length ∧
          cfg.minChunkSize < st.cur.length
      · simp [doclingStep, hh, h2, h3]
      · simp [doclingStep, hh, h2, h3]
    · intro h; exact absurd h h2

/-- Witness for the amended claim C4: a heading arriving on the non-empty
accumulator `"x"`. -/
theorem C4_witness :
    (doclingStep ⟨1000, 200, 100⟩
        { chunks := [], cur := ['x'],
          curElems := [{ idn := 9, dtype := EType.paragraph, content := ['x'],
                         level := 0, page := 1, confidence := 5 }],
          curSection := none }
        { idn := 2, dtype := EType.heading, content := ['R'],
          level := 1, page := 1, confidence := 5 }).curSection =
      some { idn := 2, dtype := EType.heading, content := ['R'],
             level := 1, page := 1, confidence := 5 } ∧
    ((doclingStep ⟨1000, 200, 100⟩
        { chunks := [], cur := ['x'],
          curElems := [{ idn := 9, dtype := EType.paragraph, content := ['x'],
                         level := 0, page := 1, confidence := 5 }],
          curSection := none }
        { idn := 2, dtype := EType.heading, content := ['R'],
          level := 1, page := 1, confidence := 5 }).chunks =
      [mkDChunk ['x'] none
        [{ idn := 9, dtype := EType.paragraph, content := ['x'],
           level := 0, page := 1, confidence := 5 }] 1] ∧
     (doclingStep ⟨1000, 200, 100⟩
        { chunks := [], cur := ['x'],
          curElems := [{ idn := 9, dtype := EType.paragraph, content := ['x'],
                         level := 0, page := 1, confidence := 5 }],
          curSection := none }
        { idn := 2, dtype := EType.heading, content := ['R'],
          level := 1, page := 1, confidence := 5 }).cur = ['R'] ∧
     (doclingStep ⟨1000, 200, 100⟩
        { chunks := [], cur := ['x'],
          curElems := [{ idn := 9, dtype := EType.paragraph, content := ['x'],
                         level := 0, page := 1, confidence := 5 }],
          curSection := none }
        { idn := 2, dtype := EType.heading, content := ['R'],
          level := 1, page := 1, confidence := 5 }).curElems =
      [{ idn := 2, dtype := EType.heading, content := ['R'],
         level := 1, page := 1, confidence := 5 }]) := by
  have h := C4_heading_amended ⟨1000, 200, 100⟩
    { chunks := [], cur := ['x'],
      curElems := [{ idn := 9, dtype := EType.paragraph, content := ['x'],
                     level := 0, page := 1, confidence := 5 }],
      curSection := none }
    { idn := 2, dtype := EType.heading, content := ['R'],
      level := 1, page := 1, confidence := 5 } rfl
  exact ⟨h.1, h.2 (by decide)⟩

/-! ### Section hierarchy (`_build_document_hierarchy`, `_get_hierarchy_path`)

Embedding of the hierarchy pass of `chunks2.py` (lines 223-256) and the
parent lookup of `_get_hierarchy_path` (lines 722-729).  The synthesized
string keys `"section_{i}"` are modelled by the index `i` itself (the
wrapper is injective in `i`).  The `confidence` float is carried as an
opaque tag, relevant only to record equality in the `.index` lookup. -/

/-- A `DocumentStructure` node. -/
structure PySection where
  level : Nat
  title : List Char
  content : List Char
  startPage : Nat
  endPage : Nat
  parentId : Option Nat
  childrenIds : List Nat
  sectionType : String
  confidence : Nat
deriving DecidableEq, Repr

/-- The parent search of `_build_document_hierarchy`: scan the hierarchy
stack from its end for the last index whose section has a smaller level. -/
def findParentIdx : List PySection → Nat → Option Nat
  | [], _ => none
  | s :: rest, lv =>
    match findParentIdx rest lv with
    | some i => some (i + 1)
    | none => if s.level < lv then some 0 else none

/-- The `DocumentStructure` record a heading element creates (parent from
the current stack, type from the title classifier). -/
def secOf (stack : List PySection) (e : DocElem) : PySection :=
  { level := e.level, title := e.content, content := [],
    startPage := e.page, endPage := e.page,
    parentId := findParentIdx stack e.level,
    childrenIds := [], sectionType := classifySectionType e.content,
    confidence := e.confidence }

/-- One step of `_build_document_hierarchy` over `(document_structures,
current_hierarchy)`: a heading computes its parent from the stack, is
classified, appended to both, and the stack is pruned to smaller levels. -/
def hierStep (acc : List PySection × List PySection) (e : DocElem) :
    List PySection × List PySection :=
  if e.dtype = EType.heading then
    (acc.1 ++ [secOf acc.2 e],
     (acc.2.filter (fun s => decide (s.level < e.level))) ++ [secOf acc.2 e])
  else acc

/-- `_build_document_hierarchy(elements)`: the resulting
`document_structures` list. -/
def buildHierarchy (elems : List DocElem) : List PySection :=
  (elems.foldl hierStep ([], [])).1

/-- The parent lookup of `_get_hierarchy_path`:
`next((s for s in docs if f"section_{docs.index(s)}" == parent_id), None)`. -/
def resolveParent (docs : List PySection) (pid : Nat) : Option PySection :=
  docs.find? (fun s => docs.indexOf s == pid)

theorem findParentIdx_lt : ∀ (stack : List PySection) (lv i : Nat),
    findParentIdx stack lv = some i → i < stack.length := by
  intro stack
  induction stack with
  | nil => intro lv i h; simp [findParentIdx] at h
  | cons s rest ih =>
    intro lv i h
    simp only [findParentIdx] at h
    cases hrec : findParentIdx rest lv with
    | some k =>
      rw [hrec] at h
      injection h with h
      have := ih lv k hrec
      simp only [List.length_cons]
      omega
    | none =>
      rw [hrec] at h
      by_cases hl : s.level < lv
      · rw [if_pos hl] at h
        injection h with h
        simp [← h]
      · rw [if_neg hl] at h
        exact absurd h (by simp)

/-- The resolver can only return the section sitting at the looked-up
index: a matching section's first occurrence is at `pid`, and no earlier
list entry can have first-occurrence index `pid`. -/
theorem resolveParent_getElem (docs : List PySection) (pid : Nat) (p : PySection)
    (h : resolveParent docs pid = some p) : docs[pid]? = some p := by
  have h' : docs.find? (fun s => docs.indexOf s == pid) = some p := h
  have hp := List.find?_some h'
  have hmem : p ∈ docs := List.mem_of_find?_eq_some h'
  have hidx : docs.indexOf p = pid := by simpa using hp
  rw [← hidx]
  exact List.getElem?_indexOf hmem

/-- Fold invariant of the hierarchy pass: the stack never outgrows the
document list, so every recorded parent index is smaller than its
section's own position in document order. -/
theorem hierFold_invariant : ∀ (elems : List DocElem)
    (docs stack : List PySection),
    stack.length ≤ docs.length →
    (∀ (j : Nat) (s : PySection), docs[j]? = some s →
      ∀ i, s.parentId = some i → i < j) →
    ∀ (j : Nat) (s : PySection), (elems.foldl hierStep (docs, stack)).1[j]? = some s →
      ∀ i, s.parentId = some i → i < j := by
  intro elems
  induction elems with
  | nil =>
    intro docs stack hlen hinv
    exact hinv
  | cons e rest ih =>
    intro docs stack hlen hinv
    by_cases hh : e.dtype = EType.heading
    · rw [List.foldl_cons]
      have hstep : hierStep (docs, stack) e =
          (docs ++ [secOf stack e],
           (stack.filter (fun s => decide (s.level < e.level))) ++ [secOf stack e]) := by
        simp [hierStep, hh]
      rw [hstep]
      have hlen' : ((stack.filter (fun s => decide (s.level < e.level))) ++
          [secOf stack e]).length ≤ (docs ++ [secOf stack e]).length := by
        simp only [List.length_append, List.length_cons, List.length_nil]
        have := List.length_filter_le (fun s => decide (s.level < e.level)) stack
        omega
      have hinv' : ∀ (j : Nat) (s : PySection),
          (docs ++ [secOf stack e])[j]? = some s →
          ∀ i, s.parentId = some i → i < j := by
        intro j s hj i hi
        by_cases hjlt : j < docs.length
        · rw [List.getElem?_append_left hjlt] at hj
          exact hinv j s hj i hi
        · have hjle : j < docs.length + 1 := by
            by_contra hcon
            have hnone : (docs ++ [secOf stack e])[j]? = none := by
              apply List.getElem?_eq_none
              simp only [List.length_append, List.length_cons, List.length_nil]
              omega
            rw [hnone] at hj
            exact absurd hj (by simp)
          have hjeq : j = docs.length := by omega
          subst hjeq
          rw [List.getElem?_concat_length] at hj
          injection hj with hj
          subst hj
          have hpid : findParentIdx stack e.level = some i := hi
          have := findParentIdx_lt stack e.level i hpid
          omega
      exact ih _ _ hlen' hinv'
    · have hstep : hierStep (docs, stack) e = (docs, stack) := by
        simp [hierStep, hh]
      rw [List.foldl_cons, hstep]
      exact ih docs stack hlen hinv

/-- Concrete input for the claim C3 counterexample: heading levels 3, 1, 2
in document order. -/
def c3elems : List DocElem :=
  [{ idn := 1, dtype := EType.heading, content := ['A', 'A', 'A', 'A'],
     level := 3, page := 1, confidence := 5 },
   { idn := 2, dtype := EType.heading, content := ['B', 'B', 'B', 'B'],
     level := 1, page := 1, confidence := 5 },
   { idn := 3, dtype := EType.heading, content := ['C', 'C', 'C', 'C'],
     level := 2, page := 1, confidence := 5 }]

set_option maxRecDepth 1000000 in
/-- Claim C3, counterexample.  The parent key `"section_{i}"` is
synthesized from the index in the transient hierarchy *stack*, but resolved
against the full document-order list: with heading levels 3, 1, 2 the third
section records parent key 0 (its parent `B` sat at stack index 0), which
resolves to the level-3 section `A` — not a strictly smaller level than the
child's level 2. -/
theorem C3_counterexample :
    (buildHierarchy c3elems).map (fun s => (s.level, s.parentId)) =
      [(3, none), (1, none), (2, some 0)] ∧
    (resolveParent (buildHierarchy c3elems) 0).map PySection.level = some 3 ∧
    ¬ ((buildHierarchy c3elems).all (fun s =>
        match s.parentId with
        | none => true
        | some i =>
          match resolveParent (buildHierarchy c3elems) i with
          | none => true
          | some p => decide (p.level < s.level)) = true) := by
  refine ⟨by decide, by decide, ?_⟩
  decide

/-- Claim C3, amended.  For every built Section with a parent reference,
the reference resolves (when it resolves at all) to a section strictly
earlier in document order — the recorded index is below the child's own
position, and the string-keyed lookup can only return the section at that
index.  The resolved parent's level need NOT be smaller than the child's
(see the counterexample): the key is a stack index, resolved against the
document-order list. -/
theorem C3_parent_amended (elems : List DocElem) (j : Nat) (s : PySection) (i : Nat)
    (hs : (buildHierarchy elems)[j]? = some s) (hp : s.parentId = some i) :
    i < j ∧ ∀ p, resolveParent (buildHierarchy elems) i = some p →
      (buildHierarchy elems)[i]? = some p := by
  constructor
  · exact hierFold_invariant elems [] [] (by simp)
      (by intro j s hj; simp at hj) j s hs i hp
  · intro p hres
    exact resolveParent_getElem _ i p hres

set_option maxRecDepth 1000000 in
/-- Witness for the amended claim C3, at the counterexample input: the
third section's parent reference points below position 2 and resolves to
the section at that position. -/
theorem C3_witness :
    ∃ s, (buildHierarchy c3elems)[2]? = some s ∧ s.parentId = some 0 ∧ 0 < 2 ∧
      (∀ p, resolveParent (buildHierarchy c3elems) 0 = some p →
        (buildHierarchy c3elems)[0]? = some p) := by
  cases h : (buildHierarchy c3elems)[2]? with
  | none => exact absurd h (by decide)
  | some s =>
    have hmap : ((buildHierarchy c3elems)[2]?).map PySection.parentId = some (some 0) := by
      decide
    rw [h] at hmap
    have hp : s.parentId = some 0 := by
      simpa using hmap
    have hmain := C3_parent_amended c3elems 2 s 0 h hp
    exact ⟨s, rfl, hp, hmain.1, hmain.2⟩

/-! ### Weighted content classifier: final selection (`_get_section_context`)

The weighted classifier of `extrair/chunks.py` (lines 541-705) accumulates
per-category scores (the dict of lines 547-558, in declaration order) and
then selects (lines 693-705): if the maximum score is below 1 it returns
`general_content`, otherwise the first category in dict iteration order
(insertion order on Python 3.7+) whose score equals the maximum.  The
score values are IEEE doubles in the source; comparison of two double
values agrees with comparison of their exact rational values (no NaN is
reachable), so score states are modelled as rationals and the selection
stage — the subject of the claim — is verified over every possible score
state, which covers every input text. -/

/-- A score state: the ten accumulators of `context_scores`, in their
declaration order. -/
structure ContextScores where
  documentHeader : ℚ
  executiveSummary : ℚ
  financialData : ℚ
  investmentContent : ℚ
  riskSection : ℚ
  legalRegulatory : ℚ
  governance : ℚ
  contactInfo : ℚ
  performanceData : ℚ
  generalContent : ℚ
deriving DecidableEq, Repr

/-- `context_scores.items()` in insertion order. -/
def scoresList (s : ContextScores) : List (String × ℚ) :=
  [(("document_header"), s.documentHeader),
   (("executive_summary"), s.executiveSummary),
   (("financial_data"), s.financialData),
   (("investment_content"), s.investmentContent),
   (("risk_section"), s.riskSection),
   (("legal_regulatory"), s.legalRegulatory),
   (("governance"), s.governance),
   (("contact_info"), s.contactInfo),
   (("performance_data"), s.performanceData),
   (("general_content"), s.generalContent)]

/-- `max(context_scores.values())`. -/
def maxScore (s : ContextScores) : ℚ :=
  match (scoresList s).map Prod.snd with
  | [] => 0
  | x :: xs => xs.foldl max x

/-- The final selection of `_get_section_context` (lines 693-705): below
the threshold return `general_content`; otherwise the first entry whose
score equals the maximum (the trailing `return "general_content"` of the
source is unreachable, as the loop always finds the maximum). -/
def selectContext (s : ContextScores) : String :=
  let m := maxScore s
  if m < 1 then ("general_content")
  else
    match (scoresList s).find? (fun kv => decide (kv.2 = m)) with
    | some kv => kv.1
    | none => ("general_content")

theorem foldl_max_mem : ∀ (xs : List ℚ) (x : ℚ), xs.foldl max x ∈ x :: xs := by
  intro xs
  induction xs with
  | nil => intro x; simp
  | cons y ys ih =>
    intro x
    rw [List.foldl_cons]
    have h := ih (max x y)
    rcases List.mem_cons.mp h with h' | h'
    · rw [h']
      rcases max_choice x y with hm | hm
      · rw [hm]; exact List.mem_cons_self _ _
      · rw [hm]
        exact List.mem_cons_of_mem _ (List.mem_cons_self _ _)
    · exact List.mem_cons_of_mem _ (List.mem_cons_of_mem _ h')

/-- `find?` returns the first satisfying entry: everything before it
falsifies the predicate. -/
theorem find?_first_position {α : Type} (p : α → Bool) :
    ∀ (l : List α) (x : α), l.find? p = some x →
    ∃ k : Nat, l[k]? = some x ∧ p x = true ∧
      ∀ j : Nat, j < k → ∀ y, l[j]? = some y → p y = false := by
  intro l
  induction l with
  | nil => intro x h; simp at h
  | cons a rest ih =>
    intro x h
    by_cases ha : p a = true
    · rw [List.find?_cons_of_pos rest ha] at h
      have hax : a = x := by injection h
      subst hax
      exact ⟨0, by simp, ha, by intro j hj; omega⟩
    · rw [List.find?_cons_of_neg rest (by simpa using ha)] at h
      obtain ⟨k, hk, hpx, hbefore⟩ := ih x h
      refine ⟨k + 1, by simpa using hk, hpx, ?_⟩
      intro j hj y hy
      cases j with
      | zero =>
        have : a = y := by simpa using hy
        subst this
        simpa using ha
      | succ j =>
        exact hbefore j (by omega) y (by simpa using hy)

/-- The maximum of the score dict is attained by one of its entries. -/
theorem maxScore_attained (s : ContextScores) :
    ∃ kv ∈ scoresList s, kv.2 = maxScore s := by
  have h := foldl_max_mem ((scoresList s).map Prod.snd).tail
    (((scoresList s).map Prod.snd).headD 0)
  have hform : maxScore s = ((scoresList s).map Prod.snd).tail.foldl max
      (((scoresList s).map Prod.snd).headD 0) := rfl
  rw [← hform] at h
  have hmem : maxScore s ∈ (scoresList s).map Prod.snd := by
    simpa [scoresList] using h
  obtain ⟨kv, hkv, hkv2⟩ := List.mem_map.mp hmem
  exact ⟨kv, hkv, hkv2⟩

/-- Claim C7 (confirmed).  For every score state: when the maximum
accumulated score is below 1 the classifier returns `general_content`;
otherwise it returns the category of the first entry, in declaration
order, whose score equals the maximum (first-declared wins on ties). -/
theorem C7_classifier_selection (s : ContextScores) :
    (maxScore s < 1 → selectContext s = ("general_content")) ∧
    (1 ≤ maxScore s →
      ∃ (k : Nat) (kv : String × ℚ), (scoresList s)[k]? = some kv ∧
        kv.1 = selectContext s ∧ kv.2 = maxScore s ∧
        ∀ j : Nat, j < k → ∀ kv' : String × ℚ, (scoresList s)[j]? = some kv' →
          kv'.2 ≠ maxScore s) := by
  constructor
  · intro h
    simp [selectContext, h]
  · intro h
    have hnl : ¬ maxScore s < 1 := by exact not_lt.mpr h
    cases hf : (scoresList s).find? (fun kv => decide (kv.2 = maxScore s)) with
    | none =>
      exfalso
      obtain ⟨kv, hkvmem, hkv2⟩ := maxScore_attained s
      have := List.find?_eq_none.mp hf kv hkvmem
      simp [hkv2] at this
    | some kv0 =>
      have hsel : selectContext s = kv0.1 := by
        simp [selectContext, hnl, hf]
      obtain ⟨k, hk, hpx, hbefore⟩ := find?_first_position _ (scoresList s) kv0 hf
      refine ⟨k, kv0, hk, hsel.symm, by simpa using hpx, ?_⟩
      intro j hj kv' hkv'
      have := hbefore j hj kv' hkv'
      simpa using this

/-- Witness for claim C7: a score state with `investment_content = 2`, all
other categories 0. -/
theorem C7_witness :
    1 ≤ maxScore ⟨0, 0, 0, 2, 0, 0, 0, 0, 0, 0⟩ ∧
    ∃ (k : Nat) (kv : String × ℚ),
      (scoresList ⟨0, 0, 0, 2, 0, 0, 0, 0, 0, 0⟩)[k]? = some kv ∧
      kv.1 = selectContext ⟨0, 0, 0, 2, 0, 0, 0, 0, 0, 0⟩ ∧
      kv.2 = maxScore ⟨0, 0, 0, 2, 0, 0, 0, 0, 0, 0⟩ ∧
      ∀ j : Nat, j < k → ∀ kv' : String × ℚ,
        (scoresList ⟨0, 0, 0, 2, 0, 0, 0, 0, 0, 0⟩)[j]? = some kv' →
        kv'.2 ≠ maxScore ⟨0, 0, 0, 2, 0, 0, 0, 0, 0, 0⟩ :=
  ⟨by norm_num [maxScore, scoresList],
   (C7_classifier_selection ⟨0, 0, 0, 2, 0, 0, 0, 0, 0, 0⟩).2
     (by norm_num [maxScore, scoresList])⟩

/-! ### Claim C9: classifier determinism and statelessness

Both classifier modes are methods of the extractor classes, but read and
write no instance attributes (only their argument and the module-level
pattern tables).  The extractor's only mutable state visible to them is
threaded explicitly below to express that: two successive calls on the
same input return identical results and leave the state untouched, and the
result does not depend on the state at all. -/

/-- The mutable extractor state in scope for the classifier methods. -/
structure ClassifierState where
  documentStructures : List PySection
deriving Repr

/-- `_classify_section_type` as a state-threading call. -/
def classifySectionTypeRun (st : ClassifierState) (t : List Char) :
    String × ClassifierState :=
  (classifySectionType t, st)

/-- The weighted-mode selection as a state-threading call. -/
def selectContextRun (st : ClassifierState) (s : ContextScores) :
    String × ClassifierState :=
  (selectContext s, st)

/-- Claim C9 (confirmed).  Both classifier modes are deterministic and
stateless: the result is independent of the extractor state, the state is
unchanged, and a second call on identical input returns the identical
result. -/
theorem C9_classifier_stateless (st st' : ClassifierState) (t : List Char)
    (s : ContextScores) :
    (classifySectionTypeRun st t).1 = (classifySectionTypeRun st' t).1 ∧
    (classifySectionTypeRun st t).2 = st ∧
    (classifySectionTypeRun ((classifySectionTypeRun st t).2) t).1 =
      (classifySectionTypeRun st t).1 ∧
    (selectContextRun st s).1 = (selectContextRun st' s).1 ∧
    (selectContextRun st s).2 = st ∧
    (selectContextRun ((selectContextRun st s).2) s).1 = (selectContextRun st s).1 :=
  ⟨rfl, rfl, rfl, rfl, rfl, rfl⟩
